import Mathlib

/- Shallow embedding of the one-dimensional evolutionary-game automata of this
   repository: the classes HawkDove1D (1-D Hawk-Dove Game notebook), StagHunt1D
   and PrisonersDilemma1D (1-D Stag Hunt notebook).  The two numpy arrays A
   (strategies) and P (payoffs) are modelled as total functions from row and
   column indices to naturals; both arrays have dtype uint8 in the source, so
   every payoff stored into P goes through the C-style float-to-uint8 cast
   (truncation toward zero followed by reduction mod 256), modelled by toUInt8Q.
   Python negative-index wraparound for an index i-1 with i possibly 0 is
   modelled by idxm1, and the source's explicit (col+1)%cols by idxp1.
   The stream of np.random.choice draws is modelled by a Boolean oracle,
   one value per column (true picks the left candidate, index 0 of the list
   passed to np.random.choice; false picks the right one). -/

/-- Python index semantics of `x[i-1]` for a length-n axis and 0 <= i <= n:
for i >= 1 this is i-1, and for i = 0 the negative index -1 wraps to n-1. -/
def idxm1 (n i : ℕ) : ℕ := (i + n - 1) % n

/-- The source's explicit right-neighbor index `(i+1) % n`. -/
def idxp1 (n i : ℕ) : ℕ := (i + 1) % n

/-- Storage of a Python number (modelled as a rational) into a numpy uint8
cell: truncation toward zero, then two's-complement wrap modulo 256. -/
def toUInt8Q (q : ℚ) : ℕ :=
  if 0 ≤ q.num then q.num.toNat / q.den % 256
  else (256 - (-q.num).toNat / q.den % 256) % 256

/-- Pointwise update of a two-dimensional array-as-function: one numpy
element assignment `f[i, j] = x`. -/
def upd2 (f : ℕ → ℕ → ℕ) (i j x : ℕ) : ℕ → ℕ → ℕ :=
  fun a b => if a = i ∧ b = j then x else f a b

/-- The payoff dictionary of HawkDove1D.step, keyed by the neighborhood
(left, mid, right); v and c are the value and cost of fighting.  Transcribed
from the `table = {...}` literal of the Hawk-Dove notebook.  A key outside
{0,1}^3 would be a Python KeyError; it is mapped to the junk value 0. -/
def hdTable (v c : ℚ) : ℕ → ℕ → ℕ → ℚ
  | 1, 1, 1 => (v - c)/2 + (v - c)/2
  | 1, 1, 0 => (v - c)/2 + v
  | 1, 0, 1 => 0 + 0
  | 1, 0, 0 => 0 + v/2
  | 0, 1, 1 => v + (v - c)/2
  | 0, 1, 0 => v + v
  | 0, 0, 1 => v/2 + 0
  | 0, 0, 0 => v/2 + v/2
  | _, _, _ => 0

/-- The payoff dictionary of StagHunt1D.step: payoffs are (t, r, s) and the
punishment value is set to p = t before building the same table literal. -/
def shTable (t r s : ℚ) : ℕ → ℕ → ℕ → ℚ :=
  let p := t
  fun l m rr =>
    match l, m, rr with
    | 1, 1, 1 => p + p
    | 1, 1, 0 => p + t
    | 1, 0, 1 => s + s
    | 1, 0, 0 => s + r
    | 0, 1, 1 => t + p
    | 0, 1, 0 => t + t
    | 0, 0, 1 => r + s
    | 0, 0, 0 => r + r
    | _, _, _ => 0

/-- The payoff dictionary of PrisonersDilemma1D.step, with payoffs
(t, r, p, s): temptation, reward, punishment, sucker. -/
def pdTable (t r p s : ℚ) : ℕ → ℕ → ℕ → ℚ
  | 1, 1, 1 => p + p
  | 1, 1, 0 => p + t
  | 1, 0, 1 => s + s
  | 1, 0, 0 => s + r
  | 0, 1, 1 => t + p
  | 0, 1, 0 => t + t
  | 0, 0, 1 => r + s
  | 0, 0, 0 => r + r
  | _, _, _ => 0

/-- Body of one iteration of the strategy-update loop of step: the branch
cascade deciding the new strategy of column `col` from the payoff row `Prow`
and strategy row `Arow` of the previous generation.  `rand col` models the
np.random.choice draw in the tie branch: true picks the left neighbor's
strategy (index 0 of the two-element list), false the right one. -/
def decideCell (Prow Arow : ℕ → ℕ) (cols col : ℕ) (rand : ℕ → Bool) : ℕ :=
  if Prow col < Prow (idxm1 cols col) then
    if Prow (idxm1 cols col) < Prow (idxp1 cols col) then Arow (idxp1 cols col)
    else if Prow (idxp1 cols col) < Prow (idxm1 cols col) then Arow (idxm1 cols col)
    else if rand col then Arow (idxm1 cols col) else Arow (idxp1 cols col)
  else if Prow col < Prow (idxp1 cols col) then Arow (idxp1 cols col)
  else Arow col

/-- The payoff loop of step, over an explicit list of column indices:
`for col in l: P[pr, col] = table[key(A[pr, col-1], A[pr, col], A[pr, (col+1)%cols])]`
where pr is the (wrapped) index row-1 and the assignment casts to uint8. -/
def payFold (tbl : ℕ → ℕ → ℕ → ℚ) (pr cols : ℕ) (A : ℕ → ℕ → ℕ) (l : List ℕ)
    (P : ℕ → ℕ → ℕ) : ℕ → ℕ → ℕ :=
  l.foldl
    (fun Q col =>
      upd2 Q pr col
        (toUInt8Q (tbl (A pr (idxm1 cols col)) (A pr col) (A pr (idxp1 cols col)))))
    P

/-- The strategy-update loop of step, over an explicit list of column indices:
`for col in l: A[row, col] = <decision>` where the decision reads the payoff
row `P pr` and the strategy row `pr` of the evolving array `B`. -/
def stratFold (pr row cols : ℕ) (P : ℕ → ℕ → ℕ) (rand : ℕ → Bool) (l : List ℕ)
    (A : ℕ → ℕ → ℕ) : ℕ → ℕ → ℕ :=
  l.foldl (fun B col => upd2 B row col (decideCell (P pr) (B pr) cols col rand)) A

/-- State of a HawkDove1D instance: payoffs = (v, c), the two grids A and P,
dimensions, and the cursor `next` (index of the next empty row). -/
structure HawkDove1D where
  payoffs : ℚ × ℚ
  rows : ℕ
  cols : ℕ
  A : ℕ → ℕ → ℕ
  P : ℕ → ℕ → ℕ
  next : ℕ

/-- HawkDove1D.__init__: cols defaults to 2*rows+1; both grids zero-filled;
cursor 0. -/
def HawkDove1D.mk0 (payoffs : ℚ × ℚ) (rows : ℕ) (cols : Option ℕ) : HawkDove1D :=
  { payoffs := payoffs
    rows := rows
    cols := match cols with
      | none => 2*rows + 1
      | some k => k
    A := fun _ _ => 0
    P := fun _ _ => 0
    next := 0 }

/-- HawkDove1D.init_single: sets A[0, cols//2] = 1 and increments the cursor. -/
def HawkDove1D.init_single (g : HawkDove1D) : HawkDove1D :=
  { g with A := upd2 g.A 0 (g.cols / 2) 1, next := g.next + 1 }

/-- HawkDove1D.init_random: fills row 0 with rounded uniform draws, i.e. one
coin flip in {0,1} per column (`bits` is the random oracle), and increments
the cursor. -/
def HawkDove1D.init_random (g : HawkDove1D) (bits : ℕ → Bool) : HawkDove1D :=
  { g with
    A := fun a b =>
      if a = 0 ∧ b < g.cols then (if bits b then 1 else 0) else g.A a b
    next := g.next + 1 }

/-- HawkDove1D.step: computes payoff row next-1 from strategy row next-1, then
derives strategy row next, then increments the cursor. -/
def HawkDove1D.step (g : HawkDove1D) (rand : ℕ → Bool) : HawkDove1D :=
  let row := g.next
  let P2 := payFold (hdTable g.payoffs.1 g.payoffs.2) (idxm1 g.rows row) g.cols
    g.A (List.range g.cols) g.P
  let A2 := stratFold (idxm1 g.rows row) row g.cols P2 rand (List.range g.cols) g.A
  { g with A := A2, P := P2, next := g.next + 1 }

/-- HawkDove1D.loop: `for i in range(rows-1): self.step()`; the i-th call
consumes the oracle `rands i`. -/
def HawkDove1D.loop (g : HawkDove1D) (rands : ℕ → ℕ → Bool) : HawkDove1D :=
  (List.range (g.rows - 1)).foldl (fun s i => HawkDove1D.step s (rands i)) g

/-- n sequential step calls, the i-th consuming oracle `rands i`. -/
def stepSeq (rands : ℕ → ℕ → Bool) (g : HawkDove1D) : ℕ → HawkDove1D
  | 0 => g
  | m + 1 => HawkDove1D.step (stepSeq rands g m) (rands m)

/-- Payoff row k of the state holds exactly the uint8-cast table values of the
neighborhoods of strategy row k. -/
def payoffRowComputed (g : HawkDove1D) (k : ℕ) : Prop :=
  ∀ j, j < g.cols →
    g.P k j = toUInt8Q (hdTable g.payoffs.1 g.payoffs.2
      (g.A k (idxm1 g.cols j)) (g.A k j) (g.A k (idxp1 g.cols j)))

/-- Strategy row k of the state is the decision-rule image of row k-1 under
the random oracle `rand`. -/
def strategyRowComputed (g : HawkDove1D) (k : ℕ) (rand : ℕ → Bool) : Prop :=
  ∀ j, j < g.cols →
    g.A k j = decideCell (g.P (k - 1)) (g.A (k - 1)) g.cols j rand

/-- Every cell of a grid is 0 or 1. -/
def binGrid (A : ℕ → ℕ → ℕ) : Prop := ∀ i j, A i j = 0 ∨ A i j = 1

/-- State of a StagHunt1D instance; payoffs = (t, r, s). -/
structure StagHunt1D where
  payoffs : ℚ × ℚ × ℚ
  rows : ℕ
  cols : ℕ
  A : ℕ → ℕ → ℕ
  P : ℕ → ℕ → ℕ
  next : ℕ

/-- StagHunt1D.step, transcribed from the Stag Hunt notebook: identical loop
structure, with the table built from (t, r, s) and p = t. -/
def StagHunt1D.step (g : StagHunt1D) (rand : ℕ → Bool) : StagHunt1D :=
  let row := g.next
  let P2 := payFold (shTable g.payoffs.1 g.payoffs.2.1 g.payoffs.2.2)
    (idxm1 g.rows row) g.cols g.A (List.range g.cols) g.P
  let A2 := stratFold (idxm1 g.rows row) row g.cols P2 rand (List.range g.cols) g.A
  { g with A := A2, P := P2, next := g.next + 1 }

/-- State of a PrisonersDilemma1D instance; payoffs = (t, r, p, s). -/
structure PrisonersDilemma1D where
  payoffs : ℚ × ℚ × ℚ × ℚ
  rows : ℕ
  cols : ℕ
  A : ℕ → ℕ → ℕ
  P : ℕ → ℕ → ℕ
  next : ℕ

/-- PrisonersDilemma1D.step, transcribed from the Prisoner's Dilemma notebook:
identical loop structure, with the table built from (t, r, p, s). -/
def PrisonersDilemma1D.step (g : PrisonersDilemma1D) (rand : ℕ → Bool) :
    PrisonersDilemma1D :=
  let row := g.next
  let P2 := payFold
    (pdTable g.payoffs.1 g.payoffs.2.1 g.payoffs.2.2.1 g.payoffs.2.2.2)
    (idxm1 g.rows row) g.cols g.A (List.range g.cols) g.P
  let A2 := stratFold (idxm1 g.rows row) row g.cols P2 rand (List.range g.cols) g.A
  { g with A := A2, P := P2, next := g.next + 1 }

/-- Constant-true random oracle, used in closed instance checks. -/
def oracleT : ℕ → Bool := fun _ => true

/-- Constant-false random oracle. -/
def oracleF : ℕ → Bool := fun _ => false

/-- Constant-true per-step random oracle family. -/
def oracleT2 : ℕ → ℕ → Bool := fun _ _ => true

/-- A 2x3 HawkDove1D state with zero payoffs and all-dove row 0, cursor 1. -/
def gHD0 : HawkDove1D := ⟨(0, 0), 2, 3, fun _ _ => 0, fun _ _ => 0, 1⟩

/-- A 2x3 HawkDove1D state with zero payoffs and a single hawk at (0, 1). -/
def gHD1 : HawkDove1D :=
  ⟨(0, 0), 2, 3, fun i j => if i = 0 ∧ j = 1 then 1 else 0, fun _ _ => 0, 1⟩

/-- A 2x3 HawkDove1D state with the notebook's payoffs (2, 3) and a single
hawk at (0, 1). -/
def gHD23 : HawkDove1D :=
  ⟨(2, 3), 2, 3, fun i j => if i = 0 ∧ j = 1 then 1 else 0, fun _ _ => 0, 1⟩

/-- A 2x3 HawkDove1D state with the notebook's payoffs (2, 3) and row 0 equal
to 1, 1, 0. -/
def gHD23a : HawkDove1D :=
  ⟨(2, 3), 2, 3, fun i j => if i = 0 ∧ j ≤ 1 then 1 else 0, fun _ _ => 0, 1⟩

/-- A 2x3 HawkDove1D state with the notebook's payoffs (2, 3) and an all-hawk
row 0. -/
def gHD23b : HawkDove1D :=
  ⟨(2, 3), 2, 3, fun i _ => if i = 0 then 1 else 0, fun _ _ => 0, 1⟩

/-- A degenerate zero-column HawkDove1D state. -/
def gHDempty : HawkDove1D := ⟨(2, 3), 1, 0, fun _ _ => 0, fun _ _ => 0, 1⟩

/-- A HawkDove1D state whose payoffs (2, -2) give the same 8-entry table as
gSHeq and gPDeq. -/
def gHDeq : HawkDove1D := ⟨(2, -2), 2, 3, fun _ _ => 0, fun _ _ => 0, 1⟩

/-- A StagHunt1D state with payoffs (2, 1, 0), matching gHDeq's table. -/
def gSHeq : StagHunt1D := ⟨(2, 1, 0), 2, 3, fun _ _ => 0, fun _ _ => 0, 1⟩

/-- A PrisonersDilemma1D state with payoffs (2, 1, 2, 0), matching gHDeq's
table. -/
def gPDeq : PrisonersDilemma1D :=
  ⟨(2, 1, 2, 0), 2, 3, fun _ _ => 0, fun _ _ => 0, 1⟩

theorem idxm1_eq (n i : ℕ) (h1 : 1 ≤ i) (h2 : i ≤ n) : idxm1 n i = i - 1 := by
  unfold idxm1
  have h3 : i + n - 1 = (i - 1) + n := by omega
  rw [h3, Nat.add_mod_right]
  exact Nat.mod_eq_of_lt (by omega)

theorem idxm1_zero (n : ℕ) (h : 1 ≤ n) : idxm1 n 0 = n - 1 := by
  unfold idxm1
  have h3 : 0 + n - 1 = n - 1 := by omega
  rw [h3]
  exact Nat.mod_eq_of_lt (by omega)

theorem idxp1_eq (n i : ℕ) (h : i + 1 < n) : idxp1 n i = i + 1 := by
  unfold idxp1
  exact Nat.mod_eq_of_lt h

theorem idxp1_last (n : ℕ) (h : 1 ≤ n) : idxp1 n (n - 1) = 0 := by
  unfold idxp1
  have h3 : n - 1 + 1 = n := by omega
  rw [h3, Nat.mod_self]

theorem upd2_same (f : ℕ → ℕ → ℕ) (i j x : ℕ) : upd2 f i j x i j = x := by
  simp [upd2]

theorem upd2_other (f : ℕ → ℕ → ℕ) (i j x a b : ℕ) (h : a ≠ i ∨ b ≠ j) :
    upd2 f i j x a b = f a b := by
  unfold upd2
  rcases h with h | h <;> simp [h]

theorem payFold_nil (tbl : ℕ → ℕ → ℕ → ℚ) (pr cols : ℕ) (A P : ℕ → ℕ → ℕ) :
    payFold tbl pr cols A [] P = P := rfl

theorem payFold_cons (tbl : ℕ → ℕ → ℕ → ℚ) (pr cols : ℕ) (A : ℕ → ℕ → ℕ)
    (x : ℕ) (xs : List ℕ) (P : ℕ → ℕ → ℕ) :
    payFold tbl pr cols A (x :: xs) P =
      payFold tbl pr cols A xs
        (upd2 P pr x
          (toUInt8Q (tbl (A pr (idxm1 cols x)) (A pr x) (A pr (idxp1 cols x))))) := rfl

theorem payFold_ne (tbl : ℕ → ℕ → ℕ → ℚ) (pr cols : ℕ) (A : ℕ → ℕ → ℕ)
    (l : List ℕ) (P : ℕ → ℕ → ℕ) (i j : ℕ) (hi : i ≠ pr) :
    payFold tbl pr cols A l P i j = P i j := by
  induction l generalizing P with
  | nil => rfl
  | cons x xs ih =>
    rw [payFold_cons, ih]
    exact upd2_other _ _ _ _ _ _ (Or.inl hi)

theorem payFold_notmem (tbl : ℕ → ℕ → ℕ → ℚ) (pr cols : ℕ) (A : ℕ → ℕ → ℕ)
    (l : List ℕ) (P : ℕ → ℕ → ℕ) (j : ℕ) (hj : j ∉ l) :
    payFold tbl pr cols A l P pr j = P pr j := by
  induction l generalizing P with
  | nil => rfl
  | cons x xs ih =>
    rw [payFold_cons, ih _ (fun h => hj (List.mem_cons_of_mem _ h))]
    exact upd2_other _ _ _ _ _ _ (Or.inr (fun h => hj (h ▸ List.mem_cons_self _ _)))

theorem payFold_mem (tbl : ℕ → ℕ → ℕ → ℚ) (pr cols : ℕ) (A : ℕ → ℕ → ℕ)
    (l : List ℕ) (P : ℕ → ℕ → ℕ) (j : ℕ) (hnd : l.Nodup) (hj : j ∈ l) :
    payFold tbl pr cols A l P pr j =
      toUInt8Q (tbl (A pr (idxm1 cols j)) (A pr j) (A pr (idxp1 cols j))) := by
  induction l generalizing P with
  | nil => cases hj
  | cons x xs ih =>
    have hnd2 := List.nodup_cons.mp hnd
    rw [payFold_cons]
    rcases List.mem_cons.mp hj with h | h
    · subst h
      rw [payFold_notmem _ _ _ _ _ _ _ hnd2.1]
      exact upd2_same _ _ _ _
    · exact ih _ hnd2.2 h

theorem stratFold_nil (pr row cols : ℕ) (P : ℕ → ℕ → ℕ) (rand : ℕ → Bool)
    (A : ℕ → ℕ → ℕ) : stratFold pr row cols P rand [] A = A := rfl

theorem stratFold_cons (pr row cols : ℕ) (P : ℕ → ℕ → ℕ) (rand : ℕ → Bool)
    (x : ℕ) (xs : List ℕ) (A : ℕ → ℕ → ℕ) :
    stratFold pr row cols P rand (x :: xs) A =
      stratFold pr row cols P rand xs
        (upd2 A row x (decideCell (P pr) (A pr) cols x rand)) := rfl

theorem stratFold_ne (pr row cols : ℕ) (P : ℕ → ℕ → ℕ) (rand : ℕ → Bool)
    (l : List ℕ) (A : ℕ → ℕ → ℕ) (i j : ℕ) (hi : i ≠ row) :
    stratFold pr row cols P rand l A i j = A i j := by
  induction l generalizing A with
  | nil => rfl
  | cons x xs ih =>
    rw [stratFold_cons, ih]
    exact upd2_other _ _ _ _ _ _ (Or.inl hi)

theorem stratFold_notmem (pr row cols : ℕ) (P : ℕ → ℕ → ℕ) (rand : ℕ → Bool)
    (l : List ℕ) (A : ℕ → ℕ → ℕ) (j : ℕ) (hj : j ∉ l) :
    stratFold pr row cols P rand l A row j = A row j := by
  induction l generalizing A with
  | nil => rfl
  | cons x xs ih =>
    rw [stratFold_cons, ih _ (fun h => hj (List.mem_cons_of_mem _ h))]
    exact upd2_other _ _ _ _ _ _ (Or.inr (fun h => hj (h ▸ List.mem_cons_self _ _)))

theorem stratFold_row_pr (pr row cols : ℕ) (P : ℕ → ℕ → ℕ) (rand : ℕ → Bool)
    (l : List ℕ) (A : ℕ → ℕ → ℕ) (hpr : pr ≠ row) :
    stratFold pr row cols P rand l A pr = A pr :=
  funext fun b => stratFold_ne pr row cols P rand l A pr b hpr

theorem stratFold_mem (pr row cols : ℕ) (P : ℕ → ℕ → ℕ) (rand : ℕ → Bool)
    (l : List ℕ) (A : ℕ → ℕ → ℕ) (j : ℕ) (hpr : pr ≠ row) (hnd : l.Nodup)
    (hj : j ∈ l) :
    stratFold pr row cols P rand l A row j =
      decideCell (P pr) (A pr) cols j rand := by
  induction l generalizing A with
  | nil => cases hj
  | cons x xs ih =>
    have hnd2 := List.nodup_cons.mp hnd
    rw [stratFold_cons]
    rcases List.mem_cons.mp hj with h | h
    · subst h
      rw [stratFold_notmem _ _ _ _ _ _ _ _ hnd2.1]
      exact upd2_same _ _ _ _
    · rw [ih _ hnd2.2 h]
      have hrow : upd2 A row x (decideCell (P pr) (A pr) cols x rand) pr = A pr :=
        funext fun b => upd2_other _ _ _ _ _ _ (Or.inl hpr)
      rw [hrow]

theorem HawkDove1D.step_P_def (g : HawkDove1D) (rand : ℕ → Bool) :
    (g.step rand).P =
      payFold (hdTable g.payoffs.1 g.payoffs.2) (idxm1 g.rows g.next) g.cols
        g.A (List.range g.cols) g.P := rfl

theorem HawkDove1D.step_A_def (g : HawkDove1D) (rand : ℕ → Bool) :
    (g.step rand).A =
      stratFold (idxm1 g.rows g.next) g.next g.cols ((g.step rand).P) rand
        (List.range g.cols) g.A := rfl

theorem HawkDove1D.step_next_def (g : HawkDove1D) (rand : ℕ → Bool) :
    (g.step rand).next = g.next + 1 := rfl

theorem HawkDove1D.step_payoffs_def (g : HawkDove1D) (rand : ℕ → Bool) :
    (g.step rand).payoffs = g.payoffs := rfl

theorem HawkDove1D.step_rows_def (g : HawkDove1D) (rand : ℕ → Bool) :
    (g.step rand).rows = g.rows := rfl

theorem HawkDove1D.step_cols_def (g : HawkDove1D) (rand : ℕ → Bool) :
    (g.step rand).cols = g.cols := rfl

theorem HawkDove1D.step_P_frame (g : HawkDove1D) (rand : ℕ → Bool) (i j : ℕ)
    (hi : i ≠ idxm1 g.rows g.next) : (g.step rand).P i j = g.P i j := by
  rw [HawkDove1D.step_P_def]
  exact payFold_ne _ _ _ _ _ _ _ _ hi

theorem HawkDove1D.step_A_frame (g : HawkDove1D) (rand : ℕ → Bool) (i j : ℕ)
    (hi : i ≠ g.next) : (g.step rand).A i j = g.A i j := by
  rw [HawkDove1D.step_A_def]
  exact stratFold_ne _ _ _ _ _ _ _ _ _ hi

theorem HawkDove1D.step_P_row (g : HawkDove1D) (rand : ℕ → Bool) (j : ℕ)
    (hj : j < g.cols) :
    (g.step rand).P (idxm1 g.rows g.next) j =
      toUInt8Q (hdTable g.payoffs.1 g.payoffs.2
        (g.A (idxm1 g.rows g.next) (idxm1 g.cols j))
        (g.A (idxm1 g.rows g.next) j)
        (g.A (idxm1 g.rows g.next) (idxp1 g.cols j))) := by
  rw [HawkDove1D.step_P_def]
  exact payFold_mem _ _ _ _ _ _ _ (List.nodup_range _) (List.mem_range.mpr hj)

theorem HawkDove1D.step_A_row (g : HawkDove1D) (rand : ℕ → Bool) (j : ℕ)
    (hpr : idxm1 g.rows g.next ≠ g.next) (hj : j < g.cols) :
    (g.step rand).A g.next j =
      decideCell ((g.step rand).P (idxm1 g.rows g.next))
        (g.A (idxm1 g.rows g.next)) g.cols j rand := by
  rw [HawkDove1D.step_A_def]
  exact stratFold_mem _ _ _ _ _ _ _ _ hpr (List.nodup_range _) (List.mem_range.mpr hj)

theorem decideCell_cases (Prow Arow : ℕ → ℕ) (cols col : ℕ) (rand : ℕ → Bool) :
    decideCell Prow Arow cols col rand = Arow (idxm1 cols col) ∨
    decideCell Prow Arow cols col rand = Arow col ∨
    decideCell Prow Arow cols col rand = Arow (idxp1 cols col) := by
  unfold decideCell
  split_ifs <;> simp

theorem decideCell_rand_eq (Prow Arow : ℕ → ℕ) (cols col : ℕ)
    (rand1 rand2 : ℕ → Bool)
    (h : Prow (idxm1 cols col) ≠ Prow (idxp1 cols col)) :
    decideCell Prow Arow cols col rand1 = decideCell Prow Arow cols col rand2 := by
  unfold decideCell
  split_ifs <;> omega

theorem stratFold_rand_eq (pr row cols : ℕ) (P : ℕ → ℕ → ℕ)
    (rand1 rand2 : ℕ → Bool) (l : List ℕ) (A : ℕ → ℕ → ℕ)
    (h : ∀ col ∈ l, P pr (idxm1 cols col) ≠ P pr (idxp1 cols col)) :
    stratFold pr row cols P rand1 l A = stratFold pr row cols P rand2 l A := by
  induction l generalizing A with
  | nil => rfl
  | cons x xs ih =>
    rw [stratFold_cons, stratFold_cons,
      decideCell_rand_eq (P pr) (A pr) cols x rand1 rand2
        (h x (List.mem_cons_self _ _))]
    exact ih _ (fun col hc => h col (List.mem_cons_of_mem _ hc))

theorem stratFold_binary (pr row cols : ℕ) (P : ℕ → ℕ → ℕ) (rand : ℕ → Bool)
    (l : List ℕ) (A : ℕ → ℕ → ℕ) (hA : binGrid A) :
    binGrid (stratFold pr row cols P rand l A) := by
  induction l generalizing A with
  | nil => exact hA
  | cons x xs ih =>
    rw [stratFold_cons]
    refine ih _ (fun i j => ?_)
    unfold upd2
    split_ifs with hij
    · rcases decideCell_cases (P pr) (A pr) cols x rand with h | h | h <;>
        rw [h] <;> exact hA pr _
    · exact hA i j

theorem loop_eq_stepSeq (g : HawkDove1D) (rands : ℕ → ℕ → Bool) :
    g.loop rands = stepSeq rands g (g.rows - 1) := by
  show (List.range (g.rows - 1)).foldl (fun s i => HawkDove1D.step s (rands i)) g
    = stepSeq rands g (g.rows - 1)
  generalize g.rows - 1 = n
  induction n with
  | zero => rfl
  | succ m ih => rw [List.range_succ, List.foldl_append, ih]; rfl

theorem stepSeq_rows (rands : ℕ → ℕ → Bool) (g : HawkDove1D) (n : ℕ) :
    (stepSeq rands g n).rows = g.rows := by
  induction n with
  | zero => rfl
  | succ m ih => rw [stepSeq, HawkDove1D.step_rows_def, ih]

theorem stepSeq_cols (rands : ℕ → ℕ → Bool) (g : HawkDove1D) (n : ℕ) :
    (stepSeq rands g n).cols = g.cols := by
  induction n with
  | zero => rfl
  | succ m ih => rw [stepSeq, HawkDove1D.step_cols_def, ih]

theorem stepSeq_payoffs (rands : ℕ → ℕ → Bool) (g : HawkDove1D) (n : ℕ) :
    (stepSeq rands g n).payoffs = g.payoffs := by
  induction n with
  | zero => rfl
  | succ m ih => rw [stepSeq, HawkDove1D.step_payoffs_def, ih]

theorem stepSeq_next (rands : ℕ → ℕ → Bool) (g : HawkDove1D) (n : ℕ) :
    (stepSeq rands g n).next = g.next + n := by
  induction n with
  | zero => rfl
  | succ m ih => rw [stepSeq, HawkDove1D.step_next_def, ih]; omega

theorem stepSeq_A_frame (rands : ℕ → ℕ → Bool) (g : HawkDove1D) (n i j : ℕ)
    (hi : i < g.next ∨ g.next + n ≤ i) :
    (stepSeq rands g n).A i j = g.A i j := by
  induction n with
  | zero => rfl
  | succ m ih =>
    have hne : i ≠ (stepSeq rands g m).next := by
      rw [stepSeq_next]; omega
    rw [stepSeq, HawkDove1D.step_A_frame _ _ _ _ hne]
    exact ih (by omega)

theorem stepSeq_P_frame (rands : ℕ → ℕ → Bool) (g : HawkDove1D) (n i j : ℕ)
    (h1 : 1 ≤ g.next) (h2 : g.next + n ≤ g.rows + 1)
    (hi : i + 1 < g.next ∨ g.next + n - 1 ≤ i) :
    (stepSeq rands g n).P i j = g.P i j := by
  induction n with
  | zero => rfl
  | succ m ih =>
    have hpr : idxm1 (stepSeq rands g m).rows (stepSeq rands g m).next
        = g.next + m - 1 := by
      rw [stepSeq_rows, stepSeq_next, idxm1_eq _ _ (by omega) (by omega)]
    have hne : i ≠ idxm1 (stepSeq rands g m).rows (stepSeq rands g m).next := by
      rw [hpr]; omega
    rw [stepSeq, HawkDove1D.step_P_frame _ _ _ _ hne]
    exact ih (by omega) (by omega)

theorem stepSeq_pRC (rands : ℕ → ℕ → Bool) (g : HawkDove1D) (h1 : g.next = 1) :
    ∀ n, n ≤ g.rows - 1 → ∀ k, k < n → payoffRowComputed (stepSeq rands g n) k := by
  intro n
  induction n with
  | zero => intro _ k hk; omega
  | succ m ih =>
    intro hm k hk
    have hnext : (stepSeq rands g m).next = 1 + m := by
      rw [stepSeq_next, h1, Nat.add_comm]
    have hpr : idxm1 (stepSeq rands g m).rows (stepSeq rands g m).next = m := by
      rw [stepSeq_rows, hnext, idxm1_eq _ _ (by omega) (by omega)]; omega
    have hkne : k ≠ (stepSeq rands g m).next := by rw [hnext]; omega
    intro j hj
    rw [stepSeq] at hj ⊢
    rw [HawkDove1D.step_cols_def, stepSeq_cols] at hj
    rw [HawkDove1D.step_payoffs_def, HawkDove1D.step_cols_def,
      HawkDove1D.step_A_frame _ _ _ _ hkne, HawkDove1D.step_A_frame _ _ _ _ hkne,
      HawkDove1D.step_A_frame _ _ _ _ hkne]
    by_cases hkm : k = m
    · have hrow := HawkDove1D.step_P_row (stepSeq rands g m) (rands m) j
        (by rw [stepSeq_cols]; exact hj)
      rw [hpr] at hrow
      rw [hkm]
      exact hrow
    · have hkne2 : k ≠ idxm1 (stepSeq rands g m).rows (stepSeq rands g m).next := by
        rw [hpr]; exact hkm
      rw [HawkDove1D.step_P_frame _ _ _ _ hkne2]
      exact ih (by omega) k (by omega) j (by rw [stepSeq_cols]; exact hj)

theorem stepSeq_sRC (rands : ℕ → ℕ → Bool) (g : HawkDove1D) (h1 : g.next = 1) :
    ∀ n, n ≤ g.rows - 1 → ∀ k, 1 ≤ k → k ≤ n →
      strategyRowComputed (stepSeq rands g n) k (rands (k - 1)) := by
  intro n
  induction n with
  | zero => intro _ k hk1 hk2; omega
  | succ m ih =>
    intro hm k hk1 hk2
    have hnext : (stepSeq rands g m).next = 1 + m := by
      rw [stepSeq_next, h1, Nat.add_comm]
    have hpr : idxm1 (stepSeq rands g m).rows (stepSeq rands g m).next = m := by
      rw [stepSeq_rows, hnext, idxm1_eq _ _ (by omega) (by omega)]; omega
    have hAm : (HawkDove1D.step (stepSeq rands g m) (rands m)).A m
        = (stepSeq rands g m).A m := by
      funext b
      exact HawkDove1D.step_A_frame _ _ _ _ (by rw [hnext]; omega)
    intro j hj
    rw [stepSeq] at hj ⊢
    rw [HawkDove1D.step_cols_def, stepSeq_cols] at hj
    rw [HawkDove1D.step_cols_def]
    by_cases hkm : k = m + 1
    · have hks : k - 1 = m := by omega
      have h1m : k = 1 + m := by omega
      rw [hks, h1m]
      conv_lhs => rw [← hnext]
      rw [HawkDove1D.step_A_row _ _ j (by rw [hpr, hnext]; omega)
        (by rw [stepSeq_cols]; exact hj)]
      rw [hpr, hAm]
    · have hkm2 : k ≤ m := by omega
      have hkne : k ≠ (stepSeq rands g m).next := by rw [hnext]; omega
      have hk1ne : k - 1 ≠ idxm1 (stepSeq rands g m).rows (stepSeq rands g m).next := by
        rw [hpr]; omega
      have hAk1 : (HawkDove1D.step (stepSeq rands g m) (rands m)).A (k - 1)
          = (stepSeq rands g m).A (k - 1) := by
        funext b
        exact HawkDove1D.step_A_frame _ _ _ _ (by rw [hnext]; omega)
      have hPk1 : (HawkDove1D.step (stepSeq rands g m) (rands m)).P (k - 1)
          = (stepSeq rands g m).P (k - 1) := by
        funext b
        exact HawkDove1D.step_P_frame _ _ _ _ hk1ne
      rw [HawkDove1D.step_A_frame _ _ _ _ hkne, hAk1, hPk1]
      exact ih (by omega) k hk1 hkm2 j (by rw [stepSeq_cols]; exact hj)

theorem sh_step_P_def (g : StagHunt1D) (rand : ℕ → Bool) :
    (g.step rand).P =
      payFold (shTable g.payoffs.1 g.payoffs.2.1 g.payoffs.2.2)
        (idxm1 g.rows g.next) g.cols g.A (List.range g.cols) g.P := rfl

theorem sh_step_A_def (g : StagHunt1D) (rand : ℕ → Bool) :
    (g.step rand).A =
      stratFold (idxm1 g.rows g.next) g.next g.cols ((g.step rand).P) rand
        (List.range g.cols) g.A := rfl

theorem sh_step_next_def (g : StagHunt1D) (rand : ℕ → Bool) :
    (g.step rand).next = g.next + 1 := rfl

theorem pd_step_P_def (g : PrisonersDilemma1D) (rand : ℕ → Bool) :
    (g.step rand).P =
      payFold (pdTable g.payoffs.1 g.payoffs.2.1 g.payoffs.2.2.1 g.payoffs.2.2.2)
        (idxm1 g.rows g.next) g.cols g.A (List.range g.cols) g.P := rfl

theorem pd_step_A_def (g : PrisonersDilemma1D) (rand : ℕ → Bool) :
    (g.step rand).A =
      stratFold (idxm1 g.rows g.next) g.next g.cols ((g.step rand).P) rand
        (List.range g.cols) g.A := rfl

theorem pd_step_next_def (g : PrisonersDilemma1D) (rand : ℕ → Bool) :
    (g.step rand).next = g.next + 1 := rfl

theorem mk0_binary (p : ℚ × ℚ) (rows : ℕ) (cols : Option ℕ) :
    binGrid (HawkDove1D.mk0 p rows cols).A := fun _ _ => Or.inl rfl

theorem init_single_binary (g : HawkDove1D) (hA : binGrid g.A) :
    binGrid (g.init_single).A := by
  intro i j
  show upd2 g.A 0 (g.cols / 2) 1 i j = 0 ∨ upd2 g.A 0 (g.cols / 2) 1 i j = 1
  unfold upd2
  split_ifs
  · exact Or.inr rfl
  · exact hA i j

theorem init_random_binary (g : HawkDove1D) (bits : ℕ → Bool) (hA : binGrid g.A) :
    binGrid (g.init_random bits).A := by
  intro i j
  show (if i = 0 ∧ j < g.cols then (if bits j then 1 else 0) else g.A i j) = 0 ∨
    (if i = 0 ∧ j < g.cols then (if bits j then 1 else 0) else g.A i j) = 1
  split_ifs
  · exact Or.inr rfl
  · exact Or.inl rfl
  · exact hA i j

theorem step_binary (g : HawkDove1D) (rand : ℕ → Bool) (hA : binGrid g.A) :
    binGrid (g.step rand).A := by
  rw [HawkDove1D.step_A_def]
  exact stratFold_binary _ _ _ _ _ _ _ hA

theorem sh_step_binary (g : StagHunt1D) (rand : ℕ → Bool) (hA : binGrid g.A) :
    binGrid (g.step rand).A := by
  rw [sh_step_A_def]
  exact stratFold_binary _ _ _ _ _ _ _ hA

theorem pd_step_binary (g : PrisonersDilemma1D) (rand : ℕ → Bool)
    (hA : binGrid g.A) : binGrid (g.step rand).A := by
  rw [pd_step_A_def]
  exact stratFold_binary _ _ _ _ _ _ _ hA

theorem foldl_step_binary (rands : ℕ → ℕ → Bool) (l : List ℕ) (g : HawkDove1D)
    (hA : binGrid g.A) :
    binGrid ((l.foldl (fun s i => HawkDove1D.step s (rands i)) g)).A := by
  induction l generalizing g with
  | nil => exact hA
  | cons x xs ih => exact ih _ (step_binary _ _ hA)

theorem loop_binary (g : HawkDove1D) (rands : ℕ → ℕ → Bool) (hA : binGrid g.A) :
    binGrid (g.loop rands).A :=
  foldl_step_binary rands _ g hA

theorem hd_sh_table_ext (v c t1 r1 s1 : ℚ)
    (h : ∀ l, l < 2 → ∀ m, m < 2 → ∀ r, r < 2 →
      hdTable v c l m r = shTable t1 r1 s1 l m r) :
    hdTable v c = shTable t1 r1 s1 := by
  funext l m r
  rcases l with _ | _ | l <;> rcases m with _ | _ | m <;> rcases r with _ | _ | r <;>
    first
      | exact h _ (by omega) _ (by omega) _ (by omega)
      | rfl

theorem hd_pd_table_ext (v c t2 r2 p2 s2 : ℚ)
    (h : ∀ l, l < 2 → ∀ m, m < 2 → ∀ r, r < 2 →
      hdTable v c l m r = pdTable t2 r2 p2 s2 l m r) :
    hdTable v c = pdTable t2 r2 p2 s2 := by
  funext l m r
  rcases l with _ | _ | l <;> rcases m with _ | _ | m <;> rcases r with _ | _ | r <;>
    first
      | exact h _ (by omega) _ (by omega) _ (by omega)
      | rfl

/-- C1: for a step at cursor next >= 1 and any column c < cols, the strategy
written to row next at column c follows exactly the source's branch cascade
over the freshly computed payoff row next-1 (left = (c-1) mod cols via idxm1,
right = (c+1) mod cols via idxp1): if P[c] < P[left] then (right adopted when
P[left] < P[right]; left adopted when P[right] < P[left]; otherwise the random
draw picks left or right); else if P[c] < P[right] then right is adopted;
otherwise the cell keeps its own strategy.  In particular, when
P[c] = P[left] > P[right] the cell keeps its own strategy. -/
theorem C1_step_decision_branches (g : HawkDove1D) (rand : ℕ → Bool) (c : ℕ)
    (h1 : 1 ≤ g.next) (h2 : g.next ≤ g.rows) (hc : c < g.cols) :
    ((g.step rand).A g.next c =
      (if (g.step rand).P (g.next - 1) c
          < (g.step rand).P (g.next - 1) (idxm1 g.cols c) then
        if (g.step rand).P (g.next - 1) (idxm1 g.cols c)
            < (g.step rand).P (g.next - 1) (idxp1 g.cols c) then
          g.A (g.next - 1) (idxp1 g.cols c)
        else if (g.step rand).P (g.next - 1) (idxp1 g.cols c)
            < (g.step rand).P (g.next - 1) (idxm1 g.cols c) then
          g.A (g.next - 1) (idxm1 g.cols c)
        else if rand c then g.A (g.next - 1) (idxm1 g.cols c)
        else g.A (g.next - 1) (idxp1 g.cols c)
      else if (g.step rand).P (g.next - 1) c
          < (g.step rand).P (g.next - 1) (idxp1 g.cols c) then
        g.A (g.next - 1) (idxp1 g.cols c)
      else g.A (g.next - 1) c)) ∧
    ((g.step rand).P (g.next - 1) c = (g.step rand).P (g.next - 1) (idxm1 g.cols c) →
      (g.step rand).P (g.next - 1) (idxp1 g.cols c)
        < (g.step rand).P (g.next - 1) (idxm1 g.cols c) →
      (g.step rand).A g.next c = g.A (g.next - 1) c) := by
  have hpr : idxm1 g.rows g.next = g.next - 1 := idxm1_eq _ _ h1 h2
  have hne : idxm1 g.rows g.next ≠ g.next := by rw [hpr]; omega
  have hrow := g.step_A_row rand c hne hc
  rw [hpr] at hrow
  constructor
  · rw [hrow]; rfl
  · intro heq hlt
    rw [hrow]
    unfold decideCell
    rw [if_neg (by omega), if_neg (by omega)]

theorem C1_step_decision_branches_check :
    (1 ≤ gHD0.next ∧ gHD0.next ≤ gHD0.rows ∧ 0 < gHD0.cols) ∧
    (((gHD0.step oracleT).A gHD0.next 0 =
      (if (gHD0.step oracleT).P (gHD0.next - 1) 0
          < (gHD0.step oracleT).P (gHD0.next - 1) (idxm1 gHD0.cols 0) then
        if (gHD0.step oracleT).P (gHD0.next - 1) (idxm1 gHD0.cols 0)
            < (gHD0.step oracleT).P (gHD0.next - 1) (idxp1 gHD0.cols 0) then
          gHD0.A (gHD0.next - 1) (idxp1 gHD0.cols 0)
        else if (gHD0.step oracleT).P (gHD0.next - 1) (idxp1 gHD0.cols 0)
            < (gHD0.step oracleT).P (gHD0.next - 1) (idxm1 gHD0.cols 0) then
          gHD0.A (gHD0.next - 1) (idxm1 gHD0.cols 0)
        else if oracleT 0 then gHD0.A (gHD0.next - 1) (idxm1 gHD0.cols 0)
        else gHD0.A (gHD0.next - 1) (idxp1 gHD0.cols 0)
      else if (gHD0.step oracleT).P (gHD0.next - 1) 0
          < (gHD0.step oracleT).P (gHD0.next - 1) (idxp1 gHD0.cols 0) then
        gHD0.A (gHD0.next - 1) (idxp1 gHD0.cols 0)
      else gHD0.A (gHD0.next - 1) 0)) ∧
    ((gHD0.step oracleT).P (gHD0.next - 1) 0
        = (gHD0.step oracleT).P (gHD0.next - 1) (idxm1 gHD0.cols 0) →
      (gHD0.step oracleT).P (gHD0.next - 1) (idxp1 gHD0.cols 0)
        < (gHD0.step oracleT).P (gHD0.next - 1) (idxm1 gHD0.cols 0) →
      (gHD0.step oracleT).A gHD0.next 0 = gHD0.A (gHD0.next - 1) 0)) :=
  ⟨by decide,
    C1_step_decision_branches gHD0 oracleT 0 (by decide) (by decide) (by decide)⟩

/-- C2: the claim that the value stored in PayoffGrid[r-1, c] equals exactly
the looked-up PayoffTable value, non-negative and unaltered by truncation or
wraparound, fails on the code: P has dtype uint8 (np.zeros_like of the uint8
grid A), so with the notebook's own payoffs (2, 3) the table value 3/2 of the
neighborhood (1,1,0) is stored as 1 and the table value -1 of (1,1,1) is
stored as 255. -/
theorem C2_uint8_storage :
    hdTable 2 3 1 1 0 = 3/2 ∧
    hdTable 2 3 1 1 1 = -1 ∧
    hdTable 2 3 1 1 1 < 0 ∧
    ((gHD23a.step oracleT).P 0 1 = 1) ∧
    ((1 : ℚ) ≠ 3/2) ∧
    ((gHD23b.step oracleT).P 0 0 = 255) ∧
    ((255 : ℚ) ≠ -1) := by
  refine ⟨?_, ?_, ?_, ?_, by norm_num, ?_, by norm_num⟩
  · show ((2 : ℚ) - 3)/2 + 2 = 3/2
    norm_num
  · show ((2 : ℚ) - 3)/2 + ((2 : ℚ) - 3)/2 = -1
    norm_num
  · show ((2 : ℚ) - 3)/2 + ((2 : ℚ) - 3)/2 < 0
    norm_num
  · exact (HawkDove1D.step_P_row gHD23a oracleT 1 (by decide)).trans
      (show toUInt8Q (((2 : ℚ) - 3)/2 + 2) = 1 by norm_num [toUInt8Q] <;> decide)
  · exact (HawkDove1D.step_P_row gHD23b oracleT 0 (by decide)).trans
      (show toUInt8Q (((2 : ℚ) - 3)/2 + ((2 : ℚ) - 3)/2) = 255 by
        norm_num [toUInt8Q] <;> decide)

/-- C4: if the freshly computed payoff of the cell itself is at least the
payoffs of both its ring neighbors, the strategy written for that column in
row next equals the cell's own strategy in row next-1. -/
theorem C4_self_preservation (g : HawkDove1D) (rand : ℕ → Bool) (c : ℕ)
    (h1 : 1 ≤ g.next) (h2 : g.next ≤ g.rows) (hc : c < g.cols)
    (hl : (g.step rand).P (g.next - 1) (idxm1 g.cols c)
      ≤ (g.step rand).P (g.next - 1) c)
    (hr : (g.step rand).P (g.next - 1) (idxp1 g.cols c)
      ≤ (g.step rand).P (g.next - 1) c) :
    (g.step rand).A g.next c = g.A (g.next - 1) c := by
  have hpr : idxm1 g.rows g.next = g.next - 1 := idxm1_eq _ _ h1 h2
  have hne : idxm1 g.rows g.next ≠ g.next := by rw [hpr]; omega
  have hrow := g.step_A_row rand c hne hc
  rw [hpr] at hrow
  rw [hrow]
  unfold decideCell
  rw [if_neg (by omega), if_neg (by omega)]

theorem C4_self_preservation_check :
    ((gHD1.step oracleT).P (gHD1.next - 1) (idxm1 gHD1.cols 1)
       ≤ (gHD1.step oracleT).P (gHD1.next - 1) 1 ∧
     (gHD1.step oracleT).P (gHD1.next - 1) (idxp1 gHD1.cols 1)
       ≤ (gHD1.step oracleT).P (gHD1.next - 1) 1) ∧
    (gHD1.step oracleT).A gHD1.next 1 = 1 := by
  have e0 : (gHD1.step oracleT).P 0 0 = 0 :=
    (HawkDove1D.step_P_row gHD1 oracleT 0 (by decide)).trans
      (show toUInt8Q ((0 : ℚ)/2 + 0) = 0 by norm_num [toUInt8Q] <;> decide)
  have e1 : (gHD1.step oracleT).P 0 1 = 0 :=
    (HawkDove1D.step_P_row gHD1 oracleT 1 (by decide)).trans
      (show toUInt8Q ((0 : ℚ) + 0) = 0 by norm_num [toUInt8Q] <;> decide)
  have e2 : (gHD1.step oracleT).P 0 2 = 0 :=
    (HawkDove1D.step_P_row gHD1 oracleT 2 (by decide)).trans
      (show toUInt8Q (0 + (0 : ℚ)/2) = 0 by norm_num [toUInt8Q] <;> decide)
  have hl : (gHD1.step oracleT).P (gHD1.next - 1) (idxm1 gHD1.cols 1)
      ≤ (gHD1.step oracleT).P (gHD1.next - 1) 1 :=
    le_of_eq (e0.trans e1.symm)
  have hr : (gHD1.step oracleT).P (gHD1.next - 1) (idxp1 gHD1.cols 1)
      ≤ (gHD1.step oracleT).P (gHD1.next - 1) 1 :=
    le_of_eq (e2.trans e1.symm)
  exact ⟨⟨hl, hr⟩,
    C4_self_preservation gHD1 oracleT 1 (by decide) (by decide) (by decide) hl hr⟩

/-- C7: a step at cursor 1 <= next < rows mutates only payoff row next-1,
strategy row next and the cursor; every other row of both grids and the
configuration fields are unchanged, payoff row next-1 is computed from the old
strategy row next-1 only, and the new strategy row next is a function of the
payoff row next-1 and the old strategy row next-1 only. -/
theorem C7_step_frame (g : HawkDove1D) (rand : ℕ → Bool)
    (h1 : 1 ≤ g.next) (h2 : g.next < g.rows) :
    (g.step rand).next = g.next + 1 ∧
    (g.step rand).payoffs = g.payoffs ∧
    (g.step rand).rows = g.rows ∧
    (g.step rand).cols = g.cols ∧
    (∀ i j, i ≠ g.next - 1 → (g.step rand).P i j = g.P i j) ∧
    (∀ i j, i ≠ g.next → (g.step rand).A i j = g.A i j) ∧
    (∀ j, j < g.cols →
      (g.step rand).P (g.next - 1) j =
        toUInt8Q (hdTable g.payoffs.1 g.payoffs.2
          (g.A (g.next - 1) (idxm1 g.cols j)) (g.A (g.next - 1) j)
          (g.A (g.next - 1) (idxp1 g.cols j)))) ∧
    (∀ j, j < g.cols →
      (g.step rand).A g.next j =
        decideCell ((g.step rand).P (g.next - 1)) (g.A (g.next - 1)) g.cols j rand) := by
  have hpr : idxm1 g.rows g.next = g.next - 1 := idxm1_eq _ _ h1 (by omega)
  have hne : idxm1 g.rows g.next ≠ g.next := by rw [hpr]; omega
  refine ⟨rfl, rfl, rfl, rfl, ?_, ?_, ?_, ?_⟩
  · intro i j hi
    exact g.step_P_frame rand i j (by rw [hpr]; exact hi)
  · intro i j hi
    exact g.step_A_frame rand i j hi
  · intro j hj
    have h := g.step_P_row rand j hj
    rw [hpr] at h
    exact h
  · intro j hj
    have h := g.step_A_row rand j hne hj
    rw [hpr] at h
    exact h

theorem C7_step_frame_check :
    ((⟨(2, 3), 2, 3, fun _ _ => 0, fun _ _ => 0, 1⟩ : HawkDove1D).step
      (fun _ => true)).next = 2 :=
  (C7_step_frame ⟨(2, 3), 2, 3, fun _ _ => 0, fun _ _ => 0, 1⟩ (fun _ => true)
    (by decide) (by decide)).1

/-- C8: if, at every column, the three freshly computed payoffs of the left
neighbor, the cell and the right neighbor are pairwise distinct, then step
never consults the random oracle: two runs with arbitrary different oracles
from the same state produce identical strategy grids, payoff grids and
cursors. -/
theorem C8_no_tie_determinism (g : HawkDove1D) (rand1 rand2 : ℕ → Bool)
    (h : ∀ c, c < g.cols →
      ((g.step rand1).P (idxm1 g.rows g.next) (idxm1 g.cols c) ≠
        (g.step rand1).P (idxm1 g.rows g.next) c ∧
       (g.step rand1).P (idxm1 g.rows g.next) c ≠
        (g.step rand1).P (idxm1 g.rows g.next) (idxp1 g.cols c) ∧
       (g.step rand1).P (idxm1 g.rows g.next) (idxm1 g.cols c) ≠
        (g.step rand1).P (idxm1 g.rows g.next) (idxp1 g.cols c))) :
    (g.step rand1).A = (g.step rand2).A ∧
    (g.step rand1).P = (g.step rand2).P ∧
    (g.step rand1).next = (g.step rand2).next := by
  have hP : (g.step rand1).P = (g.step rand2).P := rfl
  refine ⟨?_, hP, rfl⟩
  rw [HawkDove1D.step_A_def, HawkDove1D.step_A_def, ← hP]
  exact stratFold_rand_eq _ _ _ _ _ _ _ _
    (fun col hcol => (h col (List.mem_range.mp hcol)).2.2)

theorem C8_no_tie_determinism_check :
    ((⟨(2, 3), 1, 0, fun _ _ => 0, fun _ _ => 0, 1⟩ : HawkDove1D).step
      (fun _ => true)).A
    = ((⟨(2, 3), 1, 0, fun _ _ => 0, fun _ _ => 0, 1⟩ : HawkDove1D).step
      (fun _ => false)).A :=
  (C8_no_tie_determinism ⟨(2, 3), 1, 0, fun _ _ => 0, fun _ _ => 0, 1⟩
    (fun _ => true) (fun _ => false)
    (fun c hc => absurd hc (Nat.not_lt_zero c))).1

/-- C10: constructing with cols unspecified and calling init_single once gives
cols = 2*rows+1, the recorded shape (rows, cols), cursor 1, an all-zero
payoff grid, and a strategy grid that is zero everywhere except a single 1 at
(0, cols // 2). -/
theorem C10_init_single_shape (p : ℚ × ℚ) (rows : ℕ) (hr : 1 ≤ rows) :
    ((HawkDove1D.mk0 p rows none).init_single).cols = 2*rows + 1 ∧
    ((HawkDove1D.mk0 p rows none).init_single).rows = rows ∧
    ((HawkDove1D.mk0 p rows none).init_single).next = 1 ∧
    (∀ i j, ((HawkDove1D.mk0 p rows none).init_single).P i j = 0) ∧
    ((HawkDove1D.mk0 p rows none).init_single).A 0 ((2*rows + 1) / 2) = 1 ∧
    (∀ j, j ≠ (2*rows + 1) / 2 →
      ((HawkDove1D.mk0 p rows none).init_single).A 0 j = 0) ∧
    (∀ i j, i ≠ 0 → ((HawkDove1D.mk0 p rows none).init_single).A i j = 0) := by
  refine ⟨rfl, rfl, rfl, fun i j => rfl, ?_, ?_, ?_⟩
  · exact upd2_same _ _ _ _
  · intro j hj
    exact upd2_other _ _ _ _ _ _ (Or.inr hj)
  · intro i j hi
    exact upd2_other _ _ _ _ _ _ (Or.inl hi)

theorem C10_init_single_shape_check :
    ((HawkDove1D.mk0 (2, 3) 3 none).init_single).A 0 3 = 1 :=
  (C10_init_single_shape (2, 3) 3 (by decide)).2.2.2.2.1

/-- C3: the neighborhood key of the payoff lookup wraps symmetrically on the
ring: at column 0 the left neighbor is column cols-1, at column cols-1 the
right neighbor is column 0, and at any interior column c the key is simply
(row[c-1], row[c], row[c+1]); and the strategy update compares neighbor
payoffs with the same wraparound addressing at both ends. -/
theorem C3_ring_symmetry (g : HawkDove1D) (rand : ℕ → Bool)
    (h1 : 1 ≤ g.next) (h2 : g.next ≤ g.rows) (hc : 2 ≤ g.cols) :
    ((g.step rand).P (g.next - 1) 0 =
      toUInt8Q (hdTable g.payoffs.1 g.payoffs.2
        (g.A (g.next - 1) (g.cols - 1)) (g.A (g.next - 1) 0)
        (g.A (g.next - 1) 1))) ∧
    ((g.step rand).P (g.next - 1) (g.cols - 1) =
      toUInt8Q (hdTable g.payoffs.1 g.payoffs.2
        (g.A (g.next - 1) (g.cols - 2)) (g.A (g.next - 1) (g.cols - 1))
        (g.A (g.next - 1) 0))) ∧
    (∀ c, 1 ≤ c → c + 1 < g.cols →
      (g.step rand).P (g.next - 1) c =
        toUInt8Q (hdTable g.payoffs.1 g.payoffs.2
          (g.A (g.next - 1) (c - 1)) (g.A (g.next - 1) c)
          (g.A (g.next - 1) (c + 1)))) ∧
    ((g.step rand).A g.next 0 =
      (if (g.step rand).P (g.next - 1) 0 < (g.step rand).P (g.next - 1) (g.cols - 1) then
        if (g.step rand).P (g.next - 1) (g.cols - 1) < (g.step rand).P (g.next - 1) 1 then
          g.A (g.next - 1) 1
        else if (g.step rand).P (g.next - 1) 1 < (g.step rand).P (g.next - 1) (g.cols - 1) then
          g.A (g.next - 1) (g.cols - 1)
        else if rand 0 then g.A (g.next - 1) (g.cols - 1)
        else g.A (g.next - 1) 1
      else if (g.step rand).P (g.next - 1) 0 < (g.step rand).P (g.next - 1) 1 then
        g.A (g.next - 1) 1
      else g.A (g.next - 1) 0)) ∧
    ((g.step rand).A g.next (g.cols - 1) =
      (if (g.step rand).P (g.next - 1) (g.cols - 1)
          < (g.step rand).P (g.next - 1) (g.cols - 2) then
        if (g.step rand).P (g.next - 1) (g.cols - 2) < (g.step rand).P (g.next - 1) 0 then
          g.A (g.next - 1) 0
        else if (g.step rand).P (g.next - 1) 0 < (g.step rand).P (g.next - 1) (g.cols - 2) then
          g.A (g.next - 1) (g.cols - 2)
        else if rand (g.cols - 1) then g.A (g.next - 1) (g.cols - 2)
        else g.A (g.next - 1) 0
      else if (g.step rand).P (g.next - 1) (g.cols - 1) < (g.step rand).P (g.next - 1) 0 then
        g.A (g.next - 1) 0
      else g.A (g.next - 1) (g.cols - 1))) := by
  have hpr : idxm1 g.rows g.next = g.next - 1 := idxm1_eq _ _ h1 h2
  have hne : idxm1 g.rows g.next ≠ g.next := by rw [hpr]; omega
  have hl0 : idxm1 g.cols 0 = g.cols - 1 := idxm1_zero _ (by omega)
  have hr0 : idxp1 g.cols 0 = 1 := idxp1_eq _ _ (by omega)
  have hll : idxm1 g.cols (g.cols - 1) = g.cols - 2 := by
    rw [idxm1_eq _ _ (by omega) (by omega)]
    omega
  have hrl : idxp1 g.cols (g.cols - 1) = 0 := idxp1_last _ (by omega)
  refine ⟨?_, ?_, ?_, ?_, ?_⟩
  · have h := g.step_P_row rand 0 (by omega)
    rw [hpr, hl0, hr0] at h
    exact h
  · have h := g.step_P_row rand (g.cols - 1) (by omega)
    rw [hpr, hll, hrl] at h
    exact h
  · intro c h1c h2c
    have h := g.step_P_row rand c (by omega)
    rw [hpr, idxm1_eq _ _ h1c (by omega), idxp1_eq _ _ h2c] at h
    exact h
  · have h := g.step_A_row rand 0 hne (by omega)
    rw [hpr] at h
    rw [h]
    unfold decideCell
    rw [hl0, hr0]
  · have h := g.step_A_row rand (g.cols - 1) hne (by omega)
    rw [hpr] at h
    rw [h]
    unfold decideCell
    rw [hll, hrl]

theorem C3_ring_symmetry_check :
    (1 ≤ gHD23.next ∧ gHD23.next ≤ gHD23.rows ∧ 2 ≤ gHD23.cols) ∧
    ((gHD23.step oracleT).P (gHD23.next - 1) 0 =
      toUInt8Q (hdTable gHD23.payoffs.1 gHD23.payoffs.2
        (gHD23.A (gHD23.next - 1) (gHD23.cols - 1)) (gHD23.A (gHD23.next - 1) 0)
        (gHD23.A (gHD23.next - 1) 1))) :=
  ⟨by decide,
    (C3_ring_symmetry gHD23 oracleT (by decide) (by decide) (by decide)).1⟩

/-- C5: from cursor 1, loop performs exactly rows-1 sequential step calls
(it equals the rows-1-fold step iteration), leaves the cursor at rows,
leaves payoff row rows-1 untouched (so it stays all zero when it started all
zero), computes every payoff row 0 .. rows-2 from the corresponding strategy
row, and fills every strategy row 1 .. rows-1 by the decision rule from the
row above it. -/
theorem C5_loop_behavior (g : HawkDove1D) (rands : ℕ → ℕ → Bool)
    (h1 : g.next = 1) (hr : 1 ≤ g.rows) :
    g.loop rands = stepSeq rands g (g.rows - 1) ∧
    (g.loop rands).next = g.rows ∧
    (∀ j, (g.loop rands).P (g.rows - 1) j = g.P (g.rows - 1) j) ∧
    ((∀ i j, g.P i j = 0) → ∀ j, (g.loop rands).P (g.rows - 1) j = 0) ∧
    (∀ k, k < g.rows - 1 → payoffRowComputed (g.loop rands) k) ∧
    (∀ k, 1 ≤ k → k ≤ g.rows - 1 →
      strategyRowComputed (g.loop rands) k (rands (k - 1))) := by
  have hls := loop_eq_stepSeq g rands
  have hnext : (g.loop rands).next = g.rows := by
    rw [hls, stepSeq_next, h1]
    omega
  have hPun : ∀ j, (g.loop rands).P (g.rows - 1) j = g.P (g.rows - 1) j := by
    intro j
    rw [hls]
    exact stepSeq_P_frame rands g (g.rows - 1) (g.rows - 1) j (by omega) (by omega)
      (by omega)
  refine ⟨hls, hnext, hPun, ?_, ?_, ?_⟩
  · intro hz j
    rw [hPun j]
    exact hz _ _
  · intro k hk
    rw [hls]
    exact stepSeq_pRC rands g h1 (g.rows - 1) (by omega) k hk
  · intro k hk1 hk2
    rw [hls]
    exact stepSeq_sRC rands g h1 (g.rows - 1) (by omega) k hk1 hk2

theorem C5_loop_behavior_check :
    (gHD23.next = 1 ∧ 1 ≤ gHD23.rows) ∧ (gHD23.loop oracleT2).next = gHD23.rows :=
  ⟨⟨rfl, by decide⟩, (C5_loop_behavior gHD23 oracleT2 rfl (by decide)).2.1⟩

/-- C6: every grid cell is always 0 or 1: construction yields a zero grid,
init_single writes only the value 1, init_random writes only rounded coin
flips, and the step of each of the three game classes only copies strategies
already present, so binarity is preserved by every operation, including the
full loop. -/
theorem C6_binary_invariant (p : ℚ × ℚ) (rows : ℕ) (colso : Option ℕ)
    (g : HawkDove1D) (g2 : StagHunt1D) (g3 : PrisonersDilemma1D)
    (bits rand : ℕ → Bool) (rands : ℕ → ℕ → Bool)
    (hA : binGrid g.A) (hA2 : binGrid g2.A) (hA3 : binGrid g3.A) :
    binGrid (HawkDove1D.mk0 p rows colso).A ∧
    binGrid (g.init_single).A ∧
    binGrid (g.init_random bits).A ∧
    binGrid (g.step rand).A ∧
    binGrid (g.loop rands).A ∧
    binGrid (g2.step rand).A ∧
    binGrid (g3.step rand).A :=
  ⟨mk0_binary p rows colso, init_single_binary g hA, init_random_binary g bits hA,
    step_binary g rand hA, loop_binary g rands hA, sh_step_binary g2 rand hA2,
    pd_step_binary g3 rand hA3⟩

theorem C6_binary_invariant_check : binGrid (gHD23.step oracleT).A := by
  have hbin : binGrid gHD23.A := by
    intro i j
    show (if i = 0 ∧ j = 1 then 1 else 0) = 0 ∨ (if i = 0 ∧ j = 1 then 1 else 0) = 1
    split_ifs
    · exact Or.inr rfl
    · exact Or.inl rfl
  have hz : binGrid (fun _ _ => (0 : ℕ)) := fun _ _ => Or.inl rfl
  exact (C6_binary_invariant (2, 3) 2 none gHD23 gSHeq gPDeq oracleT oracleT
    oracleT2 hbin hz hz).2.2.2.1

/-- C9: the three step operations implement one engine: whenever the payoff
parameters give identical 8-entry neighborhood tables, the HawkDove1D,
StagHunt1D and PrisonersDilemma1D steps applied to identical states with the
same tie-break oracle produce identical payoff grids, strategy grids and
cursors. -/
theorem C9_engine_equiv (v c t1 r1 s1 t2 r2 p2 s2 : ℚ) (rows cols nx : ℕ)
    (A P : ℕ → ℕ → ℕ) (rand : ℕ → Bool)
    (h12 : ∀ l, l < 2 → ∀ m, m < 2 → ∀ r, r < 2 →
      hdTable v c l m r = shTable t1 r1 s1 l m r)
    (h13 : ∀ l, l < 2 → ∀ m, m < 2 → ∀ r, r < 2 →
      hdTable v c l m r = pdTable t2 r2 p2 s2 l m r) :
    ((HawkDove1D.step ⟨(v, c), rows, cols, A, P, nx⟩ rand).A
        = (StagHunt1D.step ⟨(t1, r1, s1), rows, cols, A, P, nx⟩ rand).A ∧
      (HawkDove1D.step ⟨(v, c), rows, cols, A, P, nx⟩ rand).P
        = (StagHunt1D.step ⟨(t1, r1, s1), rows, cols, A, P, nx⟩ rand).P ∧
      (HawkDove1D.step ⟨(v, c), rows, cols, A, P, nx⟩ rand).next
        = (StagHunt1D.step ⟨(t1, r1, s1), rows, cols, A, P, nx⟩ rand).next) ∧
    ((HawkDove1D.step ⟨(v, c), rows, cols, A, P, nx⟩ rand).A
        = (PrisonersDilemma1D.step ⟨(t2, r2, p2, s2), rows, cols, A, P, nx⟩ rand).A ∧
      (HawkDove1D.step ⟨(v, c), rows, cols, A, P, nx⟩ rand).P
        = (PrisonersDilemma1D.step ⟨(t2, r2, p2, s2), rows, cols, A, P, nx⟩ rand).P ∧
      (HawkDove1D.step ⟨(v, c), rows, cols, A, P, nx⟩ rand).next
        = (PrisonersDilemma1D.step ⟨(t2, r2, p2, s2), rows, cols, A, P, nx⟩ rand).next) := by
  have e1 : hdTable v c = shTable t1 r1 s1 := hd_sh_table_ext v c t1 r1 s1 h12
  have e2 : hdTable v c = pdTable t2 r2 p2 s2 := hd_pd_table_ext v c t2 r2 p2 s2 h13
  refine ⟨⟨?_, ?_, rfl⟩, ?_, ?_, rfl⟩
  · show stratFold (idxm1 rows nx) nx cols
        (payFold (hdTable v c) (idxm1 rows nx) cols A (List.range cols) P) rand
        (List.range cols) A
      = stratFold (idxm1 rows nx) nx cols
        (payFold (shTable t1 r1 s1) (idxm1 rows nx) cols A (List.range cols) P) rand
        (List.range cols) A
    rw [e1]
  · show payFold (hdTable v c) (idxm1 rows nx) cols A (List.range cols) P
      = payFold (shTable t1 r1 s1) (idxm1 rows nx) cols A (List.range cols) P
    rw [e1]
  · show stratFold (idxm1 rows nx) nx cols
        (payFold (hdTable v c) (idxm1 rows nx) cols A (List.range cols) P) rand
        (List.range cols) A
      = stratFold (idxm1 rows nx) nx cols
        (payFold (pdTable t2 r2 p2 s2) (idxm1 rows nx) cols A (List.range cols) P)
        rand (List.range cols) A
    rw [e2]
  · show payFold (hdTable v c) (idxm1 rows nx) cols A (List.range cols) P
      = payFold (pdTable t2 r2 p2 s2) (idxm1 rows nx) cols A (List.range cols) P
    rw [e2]

theorem C9_engine_equiv_check :
    (gHDeq.step oracleT).A = (gSHeq.step oracleT).A ∧
    (gHDeq.step oracleT).A = (gPDeq.step oracleT).A := by
  have h12 : ∀ l, l < 2 → ∀ m, m < 2 → ∀ r, r < 2 →
      hdTable 2 (-2) l m r = shTable 2 1 0 l m r := by
    intro l hl m hm r hr
    interval_cases l <;> interval_cases m <;> interval_cases r <;>
      norm_num [hdTable, shTable]
  have h13 : ∀ l, l < 2 → ∀ m, m < 2 → ∀ r, r < 2 →
      hdTable 2 (-2) l m r = pdTable 2 1 2 0 l m r := by
    intro l hl m hm r hr
    interval_cases l <;> interval_cases m <;> interval_cases r <;>
      norm_num [hdTable, pdTable]
  have h := C9_engine_equiv 2 (-2) 2 1 0 2 1 2 0 2 3 1 (fun _ _ => 0)
    (fun _ _ => 0) oracleT h12 h13
  exact ⟨h.1.1, h.2.1⟩
